import Mathlib

/-!
Verification development for the AtomMan panel driver (src/screen.py).

Shallow embedding of the protocol/session core: the frame codec
(read_enq / build_reply), the per-tile sequence mapping (seq_for), the
unlock state machine (unlock_attempt) and the steady-state tile-rotation
scheduler from main.  Bytes are modelled as natural numbers below 256,
byte streams as lists, strings as Lean strings, and wall-clock times as
rationals.
-/

/-- The fixed 4-byte frame trailer constant (TRAILER in screen.py). -/
def TRAILER : List ℕ := [0xCC, 0x33, 0xC3, 0x3C]

/-- Characters that the Python "latin-1" codec can encode (code point at most 0xFF). -/
def isLatin1 (c : Char) : Bool := decide (c.toNat ≤ 0xFF)

/-- Embedding of Python txt.encode("latin-1", "ignore"): characters with a
single-byte code point are kept verbatim, all others are dropped. -/
def encodeLatin1Ignore (txt : String) : List ℕ :=
  (txt.data.filter isLatin1).map Char.toNat

/-- build_reply from screen.py: magic 0xAA, tile id, 0x00, sequence byte,
the latin-1("ignore")-encoded payload, then the fixed trailer. -/
def build_reply (id_byte seq_ascii : ℕ) (txt : String) : List ℕ :=
  [0xAA, id_byte, 0x00, seq_ascii] ++ encodeLatin1Ignore txt ++ TRAILER

/-- read_enq from screen.py, over an explicit byte stream.  Returns the
parse result together with the number of bytes consumed from the stream.
The Python reads are strictly sequential with a timeout; a short read at
any step yields None, mirrored here by running out of list elements.
The function is total, so no exception can be raised. -/
def read_enq : List ℕ → Option ℕ × ℕ
  | [] => (none, 0)
  | b0 :: rest =>
    if b0 = 0xAA then
      match rest with
      | [] => (none, 1)
      | b1 :: rest1 =>
        if b1 = 0x05 then
          match rest1 with
          | [] => (none, 2)
          | b2 :: rest2 =>
            if rest2.take 4 = TRAILER then (some b2, 7)
            else (none, 3 + (rest2.take 4).length)
        else (none, 2)
    else (none, 1)

/-- A byte stream begins with a well-formed 7-byte poll frame: magic 0xAA,
control 0x05, any marker byte, then exactly the trailer constant. -/
def validPoll (input : List ℕ) : Prop :=
  7 ≤ input.length ∧ input[0]? = some 0xAA ∧ input[1]? = some 0x05 ∧
    (input.drop 3).take 4 = TRAILER

instance (input : List ℕ) : Decidable (validPoll input) := by
  unfold validPoll; infer_instance

/-- Claim C2: a stream beginning with a valid 7-byte poll frame makes
read_enq consume exactly 7 bytes and return the marker byte (position 2);
on any stream not beginning with a valid frame (mismatch at a checked
position or short read) the result is none, and the embedded function is
total so no exception is possible. -/
theorem read_enq_spec (input : List ℕ) :
    (validPoll input → read_enq input = (input[2]?, 7)) ∧
    (¬ validPoll input → (read_enq input).1 = none) := by
  constructor
  · rintro ⟨hlen, h0, h1, htr⟩
    match input, hlen with
    | b0 :: b1 :: b2 :: rest2, _ =>
      simp at h0 h1
      have hr4 : rest2.take 4 = TRAILER := by simpa using htr
      simp [read_enq, h0, h1, hr4]
  · intro hnv
    match input with
    | [] => rfl
    | [b0] => simp [read_enq]
    | [b0, b1] => simp only [read_enq]; split <;> simp [ite_self]
    | b0 :: b1 :: b2 :: rest2 =>
      by_cases h0 : b0 = 0xAA
      · by_cases h1 : b1 = 0x05
        · by_cases htr : rest2.take 4 = TRAILER
          · exfalso
            apply hnv
            have hlen4 : 4 ≤ rest2.length := by
              have := congrArg List.length htr
              simp [TRAILER] at this
              omega
            exact ⟨by simp; omega, by simp [h0], by simp [h1], by simpa using htr⟩
          · simp [read_enq, h0, h1, htr]
        · simp [read_enq, h0, h1]
      · simp [read_enq, h0]

/-- Concrete check for C2: the stream 0xAA 0x05 0x32 CC 33 C3 3C 0x99 is a
valid poll with marker 0x32; read_enq consumes 7 bytes and returns it, and
a stream with a corrupted control byte yields none. -/
theorem read_enq_spec_witness :
    read_enq [0xAA, 0x05, 0x32, 0xCC, 0x33, 0xC3, 0x3C, 0x99] = (some 0x32, 7) ∧
    (read_enq [0xAA, 0x06, 0x32, 0xCC, 0x33, 0xC3, 0x3C]).1 = none := by
  constructor
  · have h := (read_enq_spec [0xAA, 0x05, 0x32, 0xCC, 0x33, 0xC3, 0x3C, 0x99]).1
      (by decide)
    simpa using h
  · exact (read_enq_spec [0xAA, 0x06, 0x32, 0xCC, 0x33, 0xC3, 0x3C]).2 (by decide)

/-- Claim C10: build_reply is total (never raises) and produces a
well-formed frame: magic, tile id, zero byte, sequence byte, a trailer
suffix, and total length 8 plus the number of single-byte-encodable
payload characters. -/
theorem build_reply_wellformed (id_byte seq_ascii : ℕ) (txt : String)
    (_h1 : id_byte < 256) (_h2 : seq_ascii < 256) :
    (build_reply id_byte seq_ascii txt)[0]? = some 0xAA ∧
    (build_reply id_byte seq_ascii txt)[1]? = some id_byte ∧
    (build_reply id_byte seq_ascii txt)[2]? = some 0x00 ∧
    (build_reply id_byte seq_ascii txt)[3]? = some seq_ascii ∧
    TRAILER <:+ build_reply id_byte seq_ascii txt ∧
    (build_reply id_byte seq_ascii txt).length
      = 8 + (txt.data.filter isLatin1).length := by
  refine ⟨by simp [build_reply], by simp [build_reply], by simp [build_reply],
    by simp [build_reply], ⟨[0xAA, id_byte, 0x00, seq_ascii] ++ encodeLatin1Ignore txt, by
      simp [build_reply]⟩, ?_⟩
  simp [build_reply, encodeLatin1Ignore, TRAILER]
  omega

/-- Concrete check for C10 at tile CPU, sequence byte 0x32 and payload "ok". -/
theorem build_reply_wellformed_witness :
    (build_reply 0x53 0x32 "ok")[0]? = some 0xAA ∧
    (build_reply 0x53 0x32 "ok")[1]? = some 0x53 ∧
    (build_reply 0x53 0x32 "ok")[2]? = some 0x00 ∧
    (build_reply 0x53 0x32 "ok")[3]? = some 0x32 ∧
    TRAILER <:+ build_reply 0x53 0x32 "ok" ∧
    (build_reply 0x53 0x32 "ok").length = 8 + ("ok".data.filter isLatin1).length :=
  build_reply_wellformed 0x53 0x32 "ok" (by decide) (by decide)

/-- Days of the week, used to spell out the two weekday-number conventions. -/
inductive Weekday
  | monday | tuesday | wednesday | thursday | friday | saturday | sunday
deriving DecidableEq

/-- The Python time.struct_tm weekday convention: Monday=0 .. Sunday=6. -/
def pythonWday : Weekday → ℕ
  | .monday => 0
  | .tuesday => 1
  | .wednesday => 2
  | .thursday => 3
  | .friday => 4
  | .saturday => 5
  | .sunday => 6

/-- The panel weekday convention: Sunday=0 .. Saturday=6. -/
def panelWeek : Weekday → ℕ
  | .sunday => 0
  | .monday => 1
  | .tuesday => 2
  | .wednesday => 3
  | .thursday => 4
  | .friday => 5
  | .saturday => 6

/-- The week-number conversion from screen.py applied to the tm_wday field. -/
def _week_num_from_localtime (tm_wday : ℕ) : ℕ := (tm_wday + 1) % 7

/-- Claim C9: applied to a weekday in the Monday=0..Sunday=6 convention,
the week number placed in the DATE payload follows the Sunday=0..Saturday=6
convention. -/
theorem week_num_convention :
    ∀ d : Weekday, _week_num_from_localtime (pythonWday d) = panelWeek d := by
  intro d; cases d <;> rfl

/-- The payload region of a framed reply: everything after the 4 header
bytes and before the 4 trailer bytes. -/
def payloadSection (f : List ℕ) : List ℕ := (f.drop 4).take (f.length - 8)

/-- Claim C4 counterexample: the euro sign (code point 0x20AC) lies outside
the printable single-byte range, yet build_reply omits it entirely instead
of replacing it with a 0x3F byte: the framed reply is bare and contains no
byte for that character and no 0x3F anywhere. -/
theorem build_reply_drops_not_question :
    (∃ c ∈ ("€" : String).data, ¬ (0x20 ≤ c.toNat ∧ c.toNat ≤ 0x7E)) ∧
    build_reply 0x53 0x32 "€" = [0xAA, 0x53, 0x00, 0x32, 0xCC, 0x33, 0xC3, 0x3C] ∧
    0x3F ∉ build_reply 0x53 0x32 "€" := by
  decide

/-- Claim C4 (amended): the payload region of a framed reply consists of
exactly the payload characters with single-byte code points, in order;
characters above 0xFF are omitted (dropped by the latin-1 "ignore"
encoding), not replaced by a 0x3F byte. -/
theorem build_reply_payload_section (id_byte seq_ascii : ℕ) (txt : String)
    (_h1 : id_byte < 256) (_h2 : seq_ascii < 256) :
    payloadSection (build_reply id_byte seq_ascii txt)
      = (txt.data.filter isLatin1).map Char.toNat := by
  have hlen : (build_reply id_byte seq_ascii txt).length - 8
      = (encodeLatin1Ignore txt).length := by
    simp [build_reply, TRAILER]
  have hdrop : (build_reply id_byte seq_ascii txt).drop 4
      = encodeLatin1Ignore txt ++ TRAILER := by
    simp [build_reply]
  simp only [payloadSection, hlen, hdrop, List.take_left]
  rfl

/-- Concrete check for C4 (amended) at payload "ab". -/
theorem build_reply_payload_section_witness :
    payloadSection (build_reply 0x53 0x32 "ab")
      = ("ab".data.filter isLatin1).map Char.toNat :=
  build_reply_payload_section 0x53 0x32 "ab" (by decide) (by decide)

/-- Does a byte list contain the trailer constant as a contiguous substring. -/
def containsTrailer : List ℕ → Bool
  | [] => false
  | b :: bs => if (b :: bs).take 4 = TRAILER then true else containsTrailer bs

/-- Modelled from the spec: the panel locates the end of a reply frame by
scanning for the first occurrence of the trailer constant (the frame has no
length field); this splits a byte list into the part before the first
trailer occurrence and the part after it. -/
def splitAtTrailer : List ℕ → Option (List ℕ × List ℕ)
  | [] => none
  | b :: bs =>
    if (b :: bs).take 4 = TRAILER then some ([], (b :: bs).drop 4)
    else
      match splitAtTrailer bs with
      | some (p, r) => some (b :: p, r)
      | none => none

/-- Modelled from the spec: the panel-side reader of the ReplyFrame layout
of section 3 (the reply parser lives in the panel firmware, not in this
repository): magic 0xAA, tile id, zero byte, sequence byte, then payload
bytes up to the first trailer occurrence. -/
def read_reply_frame (f : List ℕ) : Option (ℕ × ℕ × List ℕ) :=
  match f with
  | magic :: id_b :: z :: s :: rest =>
    if magic = 0xAA ∧ z = 0 then
      match splitAtTrailer rest with
      | some (p, _) => some (id_b, s, p)
      | none => none
    else none
  | _ => none

/-- Decoding of single-byte code points back to a string (latin-1 decode). -/
def decodeLatin1 (bs : List ℕ) : String := String.mk (bs.map Char.ofNat)

theorem splitAtTrailer_append (p tail : List ℕ) (h : containsTrailer p = false) :
    splitAtTrailer (p ++ (TRAILER ++ tail)) = some (p, tail) := by
  induction p with
  | nil => simp [splitAtTrailer, TRAILER]
  | cons b bs ih =>
    have hhead : ¬ ((b :: bs).take 4 = TRAILER) := by
      intro heq
      simp only [containsTrailer, if_pos heq] at h
      exact Bool.noConfusion h
    have htail : containsTrailer bs = false := by
      simp only [containsTrailer] at h
      split at h
      · simp at h
      · exact h
    have hne : ¬ ((b :: (bs ++ (TRAILER ++ tail))).take 4 = TRAILER) := by
      match bs with
      | [] => intro heq; simp [TRAILER] at heq
      | [x] => intro heq; simp [TRAILER] at heq
      | [x, y] => intro heq; simp [TRAILER] at heq
      | x :: y :: z :: bs3 =>
        intro heq
        apply hhead
        simpa [TRAILER] using heq
    simp only [List.cons_append, splitAtTrailer, List.append_eq, if_neg hne, ih htail]

/-- Claim C5 counterexample: the payload consisting of the single character
U+2603 contains no trailer sequence, yet the round trip loses it: the
latin-1 "ignore" encoding drops it, the reader recovers an empty payload,
and decoding does not give back the original string. -/
theorem reply_roundtrip_fails_nonlatin1 :
    containsTrailer (encodeLatin1Ignore (String.mk [Char.ofNat 0x2603])) = false ∧
    read_reply_frame (build_reply 0x49 0x34 (String.mk [Char.ofNat 0x2603]))
      = some (0x49, 0x34, []) ∧
    decodeLatin1 [] ≠ String.mk [Char.ofNat 0x2603] := by
  decide

/-- Claim C5 (amended): for payloads all of whose characters fit in a
single byte and whose encoding does not contain the trailer sequence,
building a reply frame and reading those bytes back recovers the tile id,
the sequence byte, and the payload exactly. -/
theorem reply_roundtrip (id_byte seq_ascii : ℕ) (txt : String)
    (_h1 : id_byte < 256) (_h2 : seq_ascii < 256)
    (h3 : ∀ c ∈ txt.data, isLatin1 c = true)
    (h4 : containsTrailer (encodeLatin1Ignore txt) = false) :
    read_reply_frame (build_reply id_byte seq_ascii txt)
      = some (id_byte, seq_ascii, encodeLatin1Ignore txt) ∧
    decodeLatin1 (encodeLatin1Ignore txt) = txt := by
  constructor
  · have hs := splitAtTrailer_append (encodeLatin1Ignore txt) [] h4
    simp only [List.append_nil] at hs
    simp [read_reply_frame, build_reply, hs]
  · simp only [decodeLatin1, encodeLatin1Ignore]
    rw [List.filter_eq_self.mpr h3, List.map_map]
    have hmap : txt.data.map (Char.ofNat ∘ Char.toNat) = txt.data.map id :=
      List.map_congr_left fun c _ => Char.ofNat_toNat c
    rw [hmap, List.map_id]

/-- Concrete check for C5 (amended) at tile MEM, sequence byte 0x34 and
payload "Used". -/
theorem reply_roundtrip_witness :
    read_reply_frame (build_reply 0x49 0x34 "Used")
      = some (0x49, 0x34, encodeLatin1Ignore "Used") ∧
    decodeLatin1 (encodeLatin1Ignore "Used") = "Used" :=
  reply_roundtrip 0x49 0x34 "Used" (by decide) (by decide) (by decide) (by decide)

/-- Tile ids from screen.py in registry order:
CPU, GPU, MEM, DSK, DAT, NET, VOL, BAT (the FULL_ROT order). -/
def rotTiles : List ℕ := [0x53, 0x36, 0x49, 0x4F, 0x6B, 0x27, 0x10, 0x1A]

/-- The SEQ_FOR mapping from screen.py: per-tile fixed sequence character;
lookup misses yield none (the Python dict .get miss). -/
def SEQ_FOR (tile_id : ℕ) : Option Char :=
  if tile_id = 0x53 then some '2'
  else if tile_id = 0x36 then some '3'
  else if tile_id = 0x49 then some '4'
  else if tile_id = 0x4F then some '5'
  else if tile_id = 0x6B then some '6'
  else if tile_id = 0x27 then some '7'
  else if tile_id = 0x10 then some '9'
  else if tile_id = 0x1A then some '2'
  else none

/-- seq_for from screen.py: look up the per-tile sequence character with
default character '2', then take its ASCII value. -/
def seq_for (tile_id : ℕ) : ℕ :=
  let ch := (SEQ_FOR tile_id).getD '2'
  if ch = '<' then 0x3C else ch.toNat

/-- One item arriving on the serial line: either a valid poll frame
carrying a marker byte, together with the payloads the metric providers
would return if invoked at that moment (tile id → payload string), or
garbage that read_enq rejects. -/
inductive SerialInput where
  | valid (marker : ℕ) (env : ℕ → String)
  | invalid

/-- Number of valid poll frames in a list of serial inputs. -/
def countValid : List SerialInput → ℕ
  | [] => 0
  | SerialInput.valid _ _ :: rest => countValid rest + 1
  | SerialInput.invalid :: rest => countValid rest

/-- Tile selected by the steady scheduler at rotation counter value i
(FULL_ROT[idx % len(FULL_ROT)] in main). -/
def tileSel (i : ℕ) : ℕ := rotTiles.getD (i % rotTiles.length) 0

/-- State of the steady-state loop in main: the rotation counter and the
replies written so far (each tagged with the tile that was answered). -/
structure SteadyState where
  idx : ℕ
  out : List (ℕ × List ℕ)

/-- One iteration of the steady-state loop of main: a garbled poll
produces no reply and leaves the counter alone; a valid poll answers the
tile at the current rotation counter with its provider payload and the
fixed per-tile sequence byte, then advances the counter modulo 1,000,000. -/
def steadyStep (s : SteadyState) : SerialInput → SteadyState
  | SerialInput.invalid => s
  | SerialInput.valid _ env =>
    let tile := tileSel s.idx
    let frm := build_reply tile (seq_for tile) (env tile)
    { idx := (s.idx + 1) % 1000000, out := s.out ++ [(tile, frm)] }

def runSteadyFrom (s : SteadyState) : List SerialInput → SteadyState
  | [] => s
  | i :: rest => runSteadyFrom (steadyStep s i) rest

/-- The steady-state loop exactly as entered in main (after activation or
after exhausting unlock attempts): counter 0 and no output yet. -/
def runSteady (inputs : List SerialInput) : SteadyState :=
  runSteadyFrom { idx := 0, out := [] } inputs

/-- Spec-side scheduler whose counter grows unbounded and is reduced
modulo the rotation length only when selecting a tile; stated from the
spec's words for the refinement claim about the periodic modular
reduction in the implementation. -/
def steadyStepUnbounded (s : SteadyState) : SerialInput → SteadyState
  | SerialInput.invalid => s
  | SerialInput.valid _ env =>
    let tile := tileSel s.idx
    let frm := build_reply tile (seq_for tile) (env tile)
    { idx := s.idx + 1, out := s.out ++ [(tile, frm)] }

def runSteadyUnboundedFrom (s : SteadyState) : List SerialInput → SteadyState
  | [] => s
  | i :: rest => runSteadyUnboundedFrom (steadyStepUnbounded s i) rest

def runSteadyUnbounded (inputs : List SerialInput) : SteadyState :=
  runSteadyUnboundedFrom { idx := 0, out := [] } inputs

theorem tileSel_congr (a b : ℕ) (h : a % 8 = b % 8) : tileSel a = tileSel b := by
  unfold tileSel
  rw [show rotTiles.length = 8 from rfl, h]

theorem runSteadyFrom_eq_unbounded (inputs : List SerialInput) :
    ∀ (i j : ℕ) (o : List (ℕ × List ℕ)), i % 8 = j % 8 →
      (runSteadyFrom ⟨i, o⟩ inputs).out = (runSteadyUnboundedFrom ⟨j, o⟩ inputs).out := by
  induction inputs with
  | nil => intro i j o h; rfl
  | cons inp rest ih =>
    intro i j o h
    cases inp with
    | invalid =>
      simp only [runSteadyFrom, runSteadyUnboundedFrom, steadyStep, steadyStepUnbounded]
      exact ih i j o h
    | valid m env =>
      simp only [runSteadyFrom, runSteadyUnboundedFrom, steadyStep, steadyStepUnbounded]
      rw [tileSel_congr i j h]
      exact ih ((i + 1) % 1000000) (j + 1) _ (by omega)

/-- Claim C8: the periodic modular reduction of the steady rotation
counter (mod 1,000,000 in main) never changes which tile is selected: the
implementation loop produces exactly the same tagged replies as the
spec-side loop whose counter grows unbounded and is reduced only modulo
the rotation length 8. -/
theorem steady_counter_refinement (inputs : List SerialInput) :
    (runSteady inputs).out = (runSteadyUnbounded inputs).out :=
  runSteadyFrom_eq_unbounded inputs 0 0 [] rfl

theorem runSteadyFrom_tiles (inputs : List SerialInput) :
    ∀ (i : ℕ) (o : List (ℕ × List ℕ)),
      ((runSteadyFrom ⟨i, o⟩ inputs).out).map Prod.fst
        = o.map Prod.fst ++ (List.range (countValid inputs)).map (fun k => tileSel (i + k)) := by
  induction inputs with
  | nil => intro i o; simp [runSteadyFrom, countValid]
  | cons inp rest ih =>
    intro i o
    cases inp with
    | invalid =>
      simp only [runSteadyFrom, steadyStep, countValid]
      exact ih i o
    | valid m env =>
      simp only [runSteadyFrom, steadyStep, countValid]
      rw [ih ((i + 1) % 1000000) _]
      rw [List.range_succ_eq_map]
      simp only [List.map_cons, List.map_append, List.map_map, Function.comp,
        Nat.add_zero, List.append_assoc, List.cons_append, List.nil_append]
      congr 1
      simp only [List.map_nil, List.nil_append, List.cons.injEq]
      refine ⟨trivial, ?_⟩
      apply List.map_congr_left
      intro k _
      simp only [Function.comp_apply]
      exact tileSel_congr ((i + 1) % 1000000 + k) (i + (k + 1)) (by omega)

theorem map_range_window {α : Type} (f : ℕ → α) (n k : ℕ) (h : k + 8 ≤ n) :
    (((List.range n).map f).drop k).take 8 = (List.range 8).map (fun j => f (k + j)) := by
  obtain ⟨r, rfl⟩ : ∃ r, n = k + (8 + r) := ⟨n - k - 8, by omega⟩
  rw [List.range_add, List.map_append, List.map_map,
    List.drop_left' (by simp : ((List.range k).map f).length = k)]
  rw [← List.map_take, List.take_range, show min 8 (8 + r) = 8 by omega]
  simp [Function.comp]

theorem window_each_tile_once :
    ∀ m, m < 8 → ∀ t ∈ rotTiles,
      ((List.range 8).map (fun j => tileSel (m + j))).count t = 1 := by
  decide

/-- Claim C3: in the steady-state loop (entered with counter 0, as in
main after activation or after exhausting attempts) exactly one tile is
answered per valid poll, garbled polls produce no reply and do not
advance the rotation, the answered tiles are the registry rotation read
cyclically from index 0, and across any 8 consecutive valid polls each of
the 8 tiles is answered exactly once. -/
theorem steady_rotation_round_robin (inputs : List SerialInput) :
    ((runSteady inputs).out).map Prod.fst
      = (List.range (countValid inputs)).map tileSel ∧
    ((runSteady inputs).out).length = countValid inputs ∧
    ∀ k, k + 8 ≤ countValid inputs → ∀ t ∈ rotTiles,
      (((((runSteady inputs).out).map Prod.fst).drop k).take 8).count t = 1 := by
  have hmain : ((runSteady inputs).out).map Prod.fst
      = (List.range (countValid inputs)).map tileSel := by
    have h := runSteadyFrom_tiles inputs 0 []
    simpa [runSteady] using h
  refine ⟨hmain, ?_, ?_⟩
  · have h := congrArg List.length hmain
    simpa using h
  · intro k hk t ht
    rw [hmain, map_range_window tileSel (countValid inputs) k hk]
    have hcongr : ∀ j ∈ List.range 8, tileSel (k + j) = tileSel (k % 8 + j) :=
      fun j _ => tileSel_congr (k + j) (k % 8 + j) (by omega)
    rw [List.map_congr_left hcongr]
    exact window_each_tile_once (k % 8) (Nat.mod_lt k (by norm_num)) t ht

/-- A concrete steady-state input trace: one garbled poll followed by nine
valid polls. -/
def steadyDemoInputs : List SerialInput :=
  SerialInput.invalid :: List.replicate 9 (SerialInput.valid 0x32 (fun _ => "v"))

/-- Concrete check for C3: on the demo trace, the GPU tile appears exactly
once among the 8 valid polls following the first one. -/
theorem steady_rotation_round_robin_witness :
    ((((((runSteady steadyDemoInputs).out).map Prod.fst).drop 1).take 8).count 0x36) = 1 :=
  (steady_rotation_round_robin steadyDemoInputs).2.2 1 (by decide) 0x36 (by decide)

/-- Claim C6: every steady-state reply carries the fixed per-tile sequence
byte seq_for (not an echo of the poll marker); a tile id missing from the
SEQ_FOR mapping defaults to the ASCII value of '2' (0x32); and concretely,
the poll bytes AA 05 32 CC 33 C3 3C parse with marker 0x32, and when the
rotation counter selects CPU (tile 0x53) the reply starts AA 53 00 32 and
has the trailer CC 33 C3 3C as a suffix. -/
theorem seq_for_fixed_per_tile :
    (∀ (s : SteadyState) (m : ℕ) (env : ℕ → String),
      (steadyStep s (SerialInput.valid m env)).out
        = s.out ++ [(tileSel s.idx,
            build_reply (tileSel s.idx) (seq_for (tileSel s.idx)) (env (tileSel s.idx)))]
      ∧ (build_reply (tileSel s.idx) (seq_for (tileSel s.idx)) (env (tileSel s.idx)))[3]?
          = some (seq_for (tileSel s.idx))) ∧
    (∀ t, SEQ_FOR t = none → seq_for t = 0x32) ∧
    (read_enq [0xAA, 0x05, 0x32, 0xCC, 0x33, 0xC3, 0x3C] = (some 0x32, 7) ∧
      ∀ (s : SteadyState) (env : ℕ → String), s.idx % 8 = 0 →
        ∃ f, (steadyStep s (SerialInput.valid 0x32 env)).out = s.out ++ [(0x53, f)]
          ∧ f.take 4 = [0xAA, 0x53, 0x00, 0x32] ∧ TRAILER <:+ f) := by
  refine ⟨fun s m env => ⟨rfl, by simp [build_reply]⟩, ?_, by decide, ?_⟩
  · intro t h
    unfold seq_for
    rw [h]
    decide
  · intro s env hidx
    have ht : tileSel s.idx = 0x53 := by
      unfold tileSel
      rw [show rotTiles.length = 8 from rfl, hidx]
      rfl
    have hseq : seq_for 0x53 = 0x32 := by decide
    refine ⟨build_reply 0x53 0x32 (env 0x53), ?_, ?_, ?_⟩
    · simp [steadyStep, ht, hseq]
    · simp [build_reply]
    · exact ⟨[0xAA, 0x53, 0x00, 0x32] ++ encodeLatin1Ignore (env 0x53), by
        simp [build_reply]⟩

/-- Concrete check for C6: an unmapped tile id defaults to sequence byte
0x32, and the CPU reply at rotation counter 0 has the required frame
prefix and trailer. -/
theorem seq_for_fixed_per_tile_witness :
    seq_for 0x42 = 0x32 ∧
    ∃ f, (steadyStep ⟨0, []⟩ (SerialInput.valid 0x32 (fun _ => "cpu"))).out
        = ([] : List (ℕ × List ℕ)) ++ [(0x53, f)]
      ∧ f.take 4 = [0xAA, 0x53, 0x00, 0x32] ∧ TRAILER <:+ f :=
  ⟨seq_for_fixed_per_tile.2.1 0x42 (by decide),
   seq_for_fixed_per_tile.2.2.2 ⟨0, []⟩ (fun _ => "cpu") (by decide)⟩

/-- is_ascii_seq from screen.py: ASCII digit or the character '<'. -/
def is_ascii_seq (b : ℕ) : Bool :=
  (decide (0x30 ≤ b) && decide (b ≤ 0x39)) || decide (b = 0x3C)

/-- The unlock rotation UNLOCK_ROT from screen.py: CPU, GPU, MEM tile ids. -/
def unlockTiles : List ℕ := [0x53, 0x36, 0x49]

/-- One valid poll frame received during an unlock attempt: its arrival
time, the marker byte read_enq returned, and the payloads the providers
would return if invoked at that moment. -/
structure PollEvent where
  time : ℚ
  marker : ℕ
  env : ℕ → String

/-- Pruning of the arrival-time window in unlock_attempt: keep only the
timestamps within the trailing 2 seconds. -/
def pruneTimes (now : ℚ) (L : List ℚ) : List ℚ :=
  L.filter (fun t => decide (now - t ≤ 2))

/-- Loop state of unlock_attempt in screen.py: the rotation index, the
boot-marker counter, the pruned arrival-time window, the activation flag,
and the replies written so far. -/
structure UnlockState where
  idx : ℕ
  boot_replies : ℕ
  enq_times : List ℚ
  activated : Bool
  outputs : List (List ℕ)

/-- Initial unlock_attempt state: idx=0, boot_replies=0, enq_times=[]. -/
def unlockInit : UnlockState := ⟨0, 0, [], false, []⟩

/-- One iteration of the unlock_attempt loop for a valid poll: append and
prune the arrival window, answer the next tile of the unlock rotation
echoing the received marker, bump the boot counter on a boot-mode marker,
and set the activation flag when both thresholds are met.  After
activation the Python loop breaks, so further events leave the state
unchanged. -/
def unlockStep (s : UnlockState) (e : PollEvent) : UnlockState :=
  if s.activated then s
  else
    let times := pruneTimes e.time (s.enq_times ++ [e.time])
    let tile := unlockTiles.getD (s.idx % unlockTiles.length) 0
    let frm := build_reply tile e.marker (e.env tile)
    let br := if is_ascii_seq e.marker then s.boot_replies + 1 else s.boot_replies
    { idx := s.idx + 1, boot_replies := br, enq_times := times,
      activated := decide (3 ≤ br) && decide (5 ≤ times.length),
      outputs := s.outputs ++ [frm] }

/-- unlock_attempt from screen.py, run over the sequence of valid poll
frames arriving inside one attempt window. -/
def unlock_attempt (events : List PollEvent) : UnlockState :=
  events.foldl unlockStep unlockInit

/-- Number of boot-mode markers (ASCII digit or '<') among the events. -/
def bootCount (L : List PollEvent) : ℕ :=
  (L.filter (fun e => is_ascii_seq e.marker)).length

/-- Number of arrival timestamps within the trailing 2 seconds of now. -/
def windowCount (L : List PollEvent) (now : ℚ) : ℕ :=
  (pruneTimes now (L.map PollEvent.time)).length

/-- Both activation conditions hold at poll k: at least 3 boot-mode
markers so far, and at least 5 arrivals within the trailing 2 seconds of
poll k's arrival. -/
def condAt (events : List PollEvent) (k : ℕ) : Bool :=
  match events[k]? with
  | none => false
  | some e =>
    decide (3 ≤ bootCount (events.take (k + 1)))
      && decide (5 ≤ windowCount (events.take (k + 1)) e.time)

/-- Arrival time of the last event processed (0 when none yet). -/
def lastTime (L : List PollEvent) : ℚ := (L.getLast?).elim 0 PollEvent.time

theorem unlockStep_activated (s : UnlockState) (e : PollEvent)
    (h : s.activated = true) : unlockStep s e = s := by
  simp [unlockStep, h]

theorem unlock_attempt_concat (L : List PollEvent) (e : PollEvent) :
    unlock_attempt (L ++ [e]) = unlockStep (unlock_attempt L) e := by
  simp [unlock_attempt, List.foldl_concat]

theorem pruneTimes_append (now : ℚ) (A B : List ℚ) :
    pruneTimes now (A ++ B) = pruneTimes now A ++ pruneTimes now B := by
  simp [pruneTimes, List.filter_append]

theorem prune_prune (t1 t2 : ℚ) (M : List ℚ) (h : t1 ≤ t2) :
    pruneTimes t2 (pruneTimes t1 M) = pruneTimes t2 M := by
  unfold pruneTimes
  rw [List.filter_filter]
  apply List.filter_congr
  intro x _
  by_cases hx : t2 - x ≤ 2
  · have h1 : t1 - x ≤ 2 := by linarith
    simp [hx, h1]
  · simp [hx]

theorem prune_last (M : List PollEvent) (e : PollEvent)
    (hle : ∀ x ∈ M.map PollEvent.time, x ≤ e.time) :
    pruneTimes e.time (pruneTimes (lastTime M) (M.map PollEvent.time))
      = pruneTimes e.time (M.map PollEvent.time) := by
  rcases Mcase : M.getLast? with _ | el
  · have hM : M = [] := by
      cases M with
      | nil => rfl
      | cons a as => simp [List.getLast?_eq_getLast] at Mcase
    rw [hM]
    rfl
  · apply prune_prune
    obtain ⟨ys, hys⟩ := List.getLast?_eq_some_iff.mp Mcase
    have hmem : el ∈ M := by rw [hys]; simp
    have := hle el.time (List.mem_map_of_mem PollEvent.time hmem)
    simpa [lastTime, Mcase] using this

theorem unlock_attempt_normal (L : List PollEvent)
    (hmono : (L.map PollEvent.time).Pairwise (fun a b => a ≤ b))
    (hact : (unlock_attempt L).activated = false) :
    (unlock_attempt L).boot_replies = bootCount L ∧
    (unlock_attempt L).enq_times = pruneTimes (lastTime L) (L.map PollEvent.time) := by
  induction L using List.reverseRecOn with
  | nil => exact ⟨rfl, rfl⟩
  | append_singleton M e ih =>
    rw [unlock_attempt_concat] at hact ⊢
    cases hMact : (unlock_attempt M).activated with
    | true =>
      rw [unlockStep_activated _ _ hMact] at hact
      rw [hMact] at hact
      exact absurd hact (by simp)
    | false =>
      rw [List.map_append] at hmono
      obtain ⟨hmonoM, _, hle3⟩ := List.pairwise_append.mp hmono
      have hle : ∀ x ∈ M.map PollEvent.time, x ≤ e.time := by
        intro x hx
        exact hle3 x hx e.time (by simp)
      obtain ⟨ihb, ihe⟩ := ih hmonoM hMact
      have hpp := prune_last M e hle
      constructor
      · simp only [unlockStep, hMact, Bool.false_eq_true, if_false, ihb]
        cases his : is_ascii_seq e.marker <;>
          simp [bootCount, List.filter_append, his]
      · simp only [unlockStep, hMact, Bool.false_eq_true, if_false, ihe]
        rw [show lastTime (M ++ [e]) = e.time by
          simp [lastTime, List.getLast?_concat]]
        rw [List.map_append, pruneTimes_append, pruneTimes_append, hpp]
        simp

theorem condAt_lt (L : List PollEvent) (k : ℕ) (h : condAt L k = true) :
    k < L.length := by
  by_contra hk
  push_neg at hk
  simp only [condAt, List.getElem?_eq_none hk] at h
  exact Bool.noConfusion h

theorem condAt_append (L : List PollEvent) (e : PollEvent) (k : ℕ)
    (h : k < L.length) : condAt (L ++ [e]) k = condAt L k := by
  have h1 : (L ++ [e])[k]? = L[k]? := List.getElem?_append_left h
  have h2 : (L ++ [e]).take (k + 1) = L.take (k + 1) :=
    List.take_append_of_le_length (by omega)
  simp only [condAt, h1, h2]

theorem condAt_concat_self (L : List PollEvent) (e : PollEvent) :
    condAt (L ++ [e]) L.length
      = (decide (3 ≤ bootCount (L ++ [e]))
          && decide (5 ≤ windowCount (L ++ [e]) e.time)) := by
  have h1 : (L ++ [e])[L.length]? = some e := List.getElem?_concat_length L e
  have h2 : (L ++ [e]).take (L.length + 1) = L ++ [e] := by
    apply List.take_of_length_le
    simp
  simp only [condAt, h1, h2]

/-- Claim C1: over any sequence of valid polls with nondecreasing arrival
times within one attempt, unlock_attempt declares activation if and only
if at some poll both thresholds hold simultaneously: at least 3 boot-mode
markers (ASCII digit or '<') seen so far, and at least 5 arrival
timestamps within the trailing 2-second window pruned on every poll.
Since condAt is the conjunction of the two thresholds, either condition
alone never suffices. -/
theorem unlock_activation_iff (events : List PollEvent)
    (hmono : (events.map PollEvent.time).Pairwise (fun a b => a ≤ b)) :
    (unlock_attempt events).activated = true ↔ ∃ k, condAt events k = true := by
  induction events using List.reverseRecOn with
  | nil =>
    constructor
    · intro h
      exact absurd h (by simp [unlock_attempt, unlockInit])
    · rintro ⟨k, hk⟩
      simp [condAt] at hk
  | append_singleton L e ih =>
    have hmonoL : (L.map PollEvent.time).Pairwise (fun a b => a ≤ b) := by
      rw [List.map_append] at hmono
      exact (List.pairwise_append.mp hmono).1
    rw [unlock_attempt_concat]
    cases hLact : (unlock_attempt L).activated with
    | true =>
      rw [unlockStep_activated _ _ hLact, hLact]
      simp only [true_iff]
      obtain ⟨k, hk⟩ := (ih hmonoL).mp hLact
      have hklt := condAt_lt L k hk
      exact ⟨k, by rw [condAt_append L e k hklt]; exact hk⟩
    | false =>
      have hnone : ∀ k, k < L.length → ¬ condAt L k = true := by
        intro k hk hcond
        have h := (ih hmonoL).mpr ⟨k, hcond⟩
        rw [hLact] at h
        exact Bool.noConfusion h
      obtain ⟨ihb, ihe⟩ := unlock_attempt_normal L hmonoL hLact
      have hle : ∀ x ∈ L.map PollEvent.time, x ≤ e.time := by
        rw [List.map_append] at hmono
        intro x hx
        exact (List.pairwise_append.mp hmono).2.2 x hx e.time (by simp)
      have hb : (if is_ascii_seq e.marker then (unlock_attempt L).boot_replies + 1
          else (unlock_attempt L).boot_replies) = bootCount (L ++ [e]) := by
        rw [ihb]
        cases his : is_ascii_seq e.marker <;>
          simp [bootCount, List.filter_append, his]
      have hw : (pruneTimes e.time ((unlock_attempt L).enq_times ++ [e.time])).length
          = windowCount (L ++ [e]) e.time := by
        rw [ihe, pruneTimes_append, prune_last L e hle]
        unfold windowCount
        rw [List.map_append, pruneTimes_append]
        simp
      have hact : (unlockStep (unlock_attempt L) e).activated
          = condAt (L ++ [e]) L.length := by
        rw [condAt_concat_self]
        simp only [unlockStep, hLact, Bool.false_eq_true, if_false]
        rw [hb, hw]
      rw [hact]
      constructor
      · intro h
        exact ⟨L.length, h⟩
      · rintro ⟨k, hk⟩
        rcases lt_trichotomy k L.length with hlt | heq | hgt
        · rw [condAt_append L e k hlt] at hk
          exact absurd hk (hnone k hlt)
        · exact heq ▸ hk
        · have hnone2 : (L ++ [e])[k]? = none := by
            apply List.getElem?_eq_none
            simp
            omega
          simp only [condAt, hnone2] at hk
          exact Bool.noConfusion hk

/-- A concrete unlock poll event with a fixed provider environment. -/
def demoEvent (t : ℚ) (m : ℕ) : PollEvent := ⟨t, m, fun _ => "p"⟩

/-- Five brisk polls with digit markers at times 0, 0, 1, 1, 2 seconds. -/
def unlockDemoEvents : List PollEvent :=
  [demoEvent 0 0x31, demoEvent 0 0x32, demoEvent 1 0x33,
   demoEvent 1 0x34, demoEvent 2 0x35]

/-- Concrete check for C1: the activation equivalence instantiated on the
demo trace whose arrival times are nondecreasing. -/
theorem unlock_activation_iff_witness :
    (unlock_attempt unlockDemoEvents).activated = true
      ↔ ∃ k, condAt unlockDemoEvents k = true :=
  unlock_activation_iff unlockDemoEvents (by decide)

/-- Claim C7: during unlock, every valid poll frame answered gets exactly
one reply, and that reply's seq_byte (frame byte 3) equals the marker
received in that poll frame, whatever its value (an echo, unlike the
fixed per-tile bytes of steady state). -/
theorem unlock_echo_marker (s : UnlockState) (e : PollEvent)
    (h : s.activated = false) :
    ∃ f, (unlockStep s e).outputs = s.outputs ++ [f] ∧ f[3]? = some e.marker := by
  refine ⟨build_reply (unlockTiles.getD (s.idx % unlockTiles.length) 0) e.marker
      (e.env (unlockTiles.getD (s.idx % unlockTiles.length) 0)), ?_, ?_⟩
  · simp [unlockStep, h]
  · simp [build_reply]

/-- Concrete check for C7: from the initial unlock state, a poll with the
non-digit marker 0x77 is echoed back as the reply's byte 3. -/
theorem unlock_echo_marker_witness :
    ∃ f, (unlockStep unlockInit ⟨0, 0x77, fun _ => "x"⟩).outputs
        = unlockInit.outputs ++ [f] ∧ f[3]? = some 0x77 :=
  unlock_echo_marker unlockInit ⟨0, 0x77, fun _ => "x"⟩ rfl
